import Mathlib

/-!
Verification development for the entry-segmentation engine of
`extract_symbols.py` (Dictionary of Symbols extractor).

Text is modelled as `List Char` (Python `str`).  The Python functions
`is_running_header`, `is_page_number`, `_is_valid_term`,
`detect_entry_heading`, `extract_entries`, `clean_definition`,
`is_cross_reference` and `post_process_entries` are translated below,
keeping their names.  Regular-expression matching is translated into
explicit matcher functions realising the backtracking semantics of the
concrete patterns used in the source.
-/

/-! ### Character predicates (Python `str` semantics)

Python's `str.isspace` / regex `\s`, `str.isalpha`, `str.isupper`,
`str.lower` and regex `\d` are Unicode-aware.  They are modelled here by
explicit code-point ranges: the full whitespace set, the ASCII and
Latin-1 letter ranges for `isalpha`/`isupper`/`lower`, and the ASCII
range plus several representative Unicode `Nd` ranges (Arabic-Indic,
Extended Arabic-Indic, Devanagari, Bengali, fullwidth) for `\d`;
Python's `\d` additionally covers further `Nd` ranges not needed for any
statement below. -/

def pyIsSpace (c : Char) : Bool :=
  let n := c.toNat
  decide (n = 32 ∨ n = 9 ∨ n = 10 ∨ n = 13 ∨ n = 11 ∨ n = 12 ∨
    (28 ≤ n ∧ n ≤ 31) ∨ n = 133 ∨ n = 160 ∨ n = 5760 ∨
    (8192 ≤ n ∧ n ≤ 8202) ∨ n = 8232 ∨ n = 8233 ∨ n = 8239 ∨ n = 8287 ∨ n = 12288)

def pyIsAlpha (c : Char) : Bool :=
  let n := c.toNat
  decide ((65 ≤ n ∧ n ≤ 90) ∨ (97 ≤ n ∧ n ≤ 122) ∨ n = 170 ∨ n = 181 ∨ n = 186 ∨
    (192 ≤ n ∧ n ≤ 214) ∨ (216 ≤ n ∧ n ≤ 246) ∨ (248 ≤ n ∧ n ≤ 255))

def pyIsUpper (c : Char) : Bool :=
  let n := c.toNat
  decide ((65 ≤ n ∧ n ≤ 90) ∨ (192 ≤ n ∧ n ≤ 214) ∨ (216 ≤ n ∧ n ≤ 222))

def pyIsDecimalDigit (c : Char) : Bool :=
  let n := c.toNat
  decide ((48 ≤ n ∧ n ≤ 57) ∨ (1632 ≤ n ∧ n ≤ 1641) ∨ (1776 ≤ n ∧ n ≤ 1785) ∨
    (2406 ≤ n ∧ n ≤ 2415) ∨ (2534 ≤ n ∧ n ≤ 2543) ∨ (65296 ≤ n ∧ n ≤ 65305))

def isAsciiDigit (c : Char) : Bool :=
  let n := c.toNat
  decide (48 ≤ n ∧ n ≤ 57)

def isAsciiLower (c : Char) : Bool :=
  let n := c.toNat
  decide (97 ≤ n ∧ n ≤ 122)

def isAsciiUpper (c : Char) : Bool :=
  let n := c.toNat
  decide (65 ≤ n ∧ n ≤ 90)

def pyToLower (c : Char) : Char :=
  let n := c.toNat
  if (65 ≤ n ∧ n ≤ 90) ∨ (192 ≤ n ∧ n ≤ 214) ∨ (216 ≤ n ∧ n ≤ 222) then
    Char.ofNat (n + 32)
  else c

def newlineChar : Char := Char.ofNat 10

def softHyphenChar : Char := Char.ofNat 173

def apostChar : Char := Char.ofNat 39

def quoteChar : Char := Char.ofNat 34

/-! ### String (list) helpers -/

/-- Python `str.strip()`: remove leading and trailing whitespace. -/
def pystrip (l : List Char) : List Char :=
  List.rdropWhile pyIsSpace (l.dropWhile pyIsSpace)

/-- Python `str.rstrip('.')`. -/
def rstripDots (l : List Char) : List Char :=
  List.rdropWhile (fun c => c = '.') l

/-- Python `str.rstrip('.,')`. -/
def rstripDotComma (l : List Char) : List Char :=
  List.rdropWhile (fun c => c = '.' ∨ c = ',') l

/-- Python `str.lower()` (ASCII and Latin-1 ranges). -/
def pyLower (l : List Char) : List Char := l.map pyToLower

/-- Python `sep.join(parts)`. -/
def joinWith (sep : List Char) : List (List Char) → List Char
  | [] => []
  | [x] => x
  | x :: y :: ys => x ++ sep ++ joinWith sep (y :: ys)

/-- Python `str.split()` (split on whitespace runs, no empty parts):
accumulator version, `acc` holds the current word reversed. -/
def pySplitAux : List Char → List Char → List (List Char)
  | [], acc => if acc.isEmpty then [] else [acc.reverse]
  | c :: cs, acc =>
    if pyIsSpace c then
      if acc.isEmpty then pySplitAux cs [] else acc.reverse :: pySplitAux cs []
    else pySplitAux cs (c :: acc)

def pySplit (l : List Char) : List (List Char) := pySplitAux l []

/-! ### Fixed word lists from the source -/

def SENTENCE_STARTERS : List (List Char) :=
  ["the", "a", "an", "in", "on", "at", "by", "for", "to", "of",
   "it", "its", "this", "that", "these", "those", "they", "them",
   "he", "she", "his", "her", "we", "our", "but", "and", "or",
   "if", "as", "so", "yet", "nor", "not", "no", "all", "any",
   "both", "each", "every", "some", "such", "than",
   "one", "two", "three", "four", "five", "six", "seven", "eight",
   "from", "with", "into", "upon", "over", "under", "through",
   "between", "among", "about", "during", "before", "after",
   "since", "while", "when", "where", "which", "what", "who",
   "how", "there", "here", "thus", "hence", "therefore",
   "however", "moreover", "furthermore", "nevertheless",
   "according", "although", "because", "whether", "like",
   "many", "most", "much", "more", "less", "few", "other",
   "another", "only", "just", "even", "still", "also", "too"].map String.toList

def FRAG_ENDERS : List (List Char) :=
  ["the", "a", "an", "of", "in", "on", "at", "to", "for", "by",
   "with", "from", "and", "or", "but", "as", "is", "was", "are",
   "were", "be", "been", "being", "has", "had", "have", "its",
   "his", "her", "he", "she", "it", "they", "we", "our", "their",
   "that", "this", "those", "these", "which", "who", "whom",
   "not", "no", "nor", "so", "than", "if", "st"].map String.toList

def FRAG_INTERNALS : List (List Char) :=
  ["the", "a", "an", "is", "was", "are", "were", "be",
   "that", "which", "who", "whom", "has", "had", "have",
   "not", "also", "been", "being", "its", "his", "her",
   "their", "our", "my", "your", "can", "could", "would",
   "should", "will", "shall", "may", "might", "must",
   "do", "does", "did", "very", "just", "even", "still"].map String.toList

def FRAG_DECISIVE : List (List Char) :=
  ["the", "is", "was", "are", "were"].map String.toList

def TRIM_LOWER : List (List Char) :=
  ["the", "a", "an", "in", "on", "at", "as", "or", "and",
   "its", "this", "that", "these", "those", "all", "old",
   "one", "two", "for", "but", "not", "from", "with", "new",
   "first", "second", "third", "last", "next", "other",
   "great", "good", "long", "high", "deep", "early", "late",
   "most", "many", "some", "each", "every", "such"].map String.toList

def SINGLE_WORD_EXCLUSIONS : List (List Char) :=
  ["very", "also", "just", "even", "still", "yet", "only",
   "often", "always", "never", "rather", "quite",
   "traditional", "finally", "similarly", "conversely",
   "originally", "essentially", "generally", "consequently",
   "alternatively", "accordingly", "subsequently", "nevertheless",
   "furthermore", "moreover", "whereas", "whereby", "thereby",
   "nonetheless", "otherwise", "indeed", "certainly",
   "perhaps", "probably", "possibly", "apparently", "recently",
   "clearly", "obviously", "simply", "merely", "purely",
   "primarily", "mainly", "largely", "partly", "partly",
   "already", "sometimes", "everywhere", "anywhere", "nowhere"].map String.toList

/-! ### Block classifier -/

/-- `is_running_header`: ALL-CAPS running headers like "AUTOMOBILE".
Python computes `upper_ratio = upper/len(alpha_chars)` in floating point
and tests `upper_ratio >= 0.9`; for integer counts this coincides
exactly with the rational comparison `10*upper ≥ 9*len`. -/
def is_running_header (text : List Char) : Bool :=
  let stripped := rstripDots (pystrip text)
  if stripped.isEmpty then false
  else
    let alpha_chars := stripped.filter pyIsAlpha
    if alpha_chars.isEmpty then false
    else
      let upper := (alpha_chars.filter pyIsUpper).length
      decide (10 * upper ≥ 9 * alpha_chars.length ∧
        2 ≤ stripped.length ∧ stripped.length ≤ 50)

/-- Matcher for the regex `^\d{1,4}$` (`re.match` semantics: `$` also
matches just before a single trailing newline). -/
def reDigits14Core (s : List Char) : Bool :=
  decide (1 ≤ s.length ∧ s.length ≤ 4) && s.all pyIsDecimalDigit

def reMatchDigits14 (s : List Char) : Bool :=
  match s.getLast? with
  | some c => if c = newlineChar then reDigits14Core s.dropLast else reDigits14Core s
  | none => false

/-- `is_page_number`: standalone page numbers like "311". -/
def is_page_number (text : List Char) : Bool :=
  reMatchDigits14 (pystrip text)

/-! ### Term validator -/

/-- `_is_valid_term`: reject candidate terms that look like sentence
fragments rather than dictionary headwords. -/
def _is_valid_term (term : List Char) : Bool :=
  match pySplit term with
  | [] => false
  | w :: ws =>
    let first_word := pyLower w
    let last_word := pyLower ((w :: ws).getLastD [])
    if first_word ∈ SENTENCE_STARTERS then false
    else if last_word ∈ FRAG_ENDERS then false
    else if (w :: ws).length > 5 then false
    else if 3 ≤ (w :: ws).length then
      let internal_words := ws.map pyLower
      if 2 ≤ internal_words.countP (fun x => decide (x ∈ FRAG_INTERNALS)) then false
      else if internal_words.any (fun x => decide (x ∈ FRAG_DECISIVE)) then false
      else true
    else true

/-! ### Heading detector

`detect_entry_heading` tries five regex patterns in order.  Each regex
is realised as an explicit matcher with the backtracking behaviour of
Python `re.match` on that concrete pattern. -/

/-- Character class `[a-z\s,'\-]` of the lowercase-term patterns. -/
def termClassChar (c : Char) : Bool :=
  isAsciiLower c || pyIsSpace c || c = ',' || c = apostChar || c = '-'

/-- `[A-Z'"]`: start of a definition in pattern 1. -/
def isDefStart (c : Char) : Bool :=
  isAsciiUpper c || c = apostChar || c = quoteChar

/-- Match `\s+X` where `X` is a character satisfying `p`: at least one
whitespace character, then (after the maximal whitespace run, since no
`p`-character is whitespace in any use below) a character satisfying
`p`.  Returns the suffix starting at that character. -/
def matchWsThen (p : Char → Bool) (r : List Char) : Option (List Char) :=
  match r with
  | [] => none
  | c :: _ =>
    if pyIsSpace c then
      match r.dropWhile pyIsSpace with
      | [] => none
      | d :: ds => if p d then some (d :: ds) else none
    else none

/-- Match the fragment `(?:\s*\([^)]*\))?\s+([A-Z'"].*)` of pattern 1
against `r`; on success return capture group 2 (the definition text,
running to the end of the line).  The optional parenthetical is tried
first (greedy), falling back to the plain branch. -/
def restAfterTerm1 (r : List Char) : Option (List Char) :=
  let parenBranch :=
    match r.dropWhile pyIsSpace with
    | c :: rest =>
      if c = '(' then
        let inside := rest.takeWhile (fun d => !(d = ')'))
        match rest.drop inside.length with
        | d :: rest2 => if d = ')' then matchWsThen isDefStart rest2 else none
        | [] => none
      else none
    | [] => none
  match parenBranch with
  | some g2 => some g2
  | none => matchWsThen isDefStart r

/-- Lazy scan of `([a-z][a-z\s,'\-]+?)` followed by a rest-matcher `k`:
`acc` is the reversed group-1 candidate so far (length ≥ 2 at every
call); the shortest extension whose remainder satisfies `k` wins. -/
def lazyTermScan (k : List Char → Option (List Char)) :
    List Char → List Char → Option (List Char × List Char)
  | acc, rest =>
    match k rest with
    | some g2 => some (acc.reverse, g2)
    | none =>
      match rest with
      | c :: cs => if termClassChar c then lazyTermScan k (c :: acc) cs else none
      | [] => none

/-- Start the lazy scan: group 1 needs one `[a-z]` plus at least one
class character. -/
def lazyTermStart (k : List Char → Option (List Char)) (line : List Char) :
    Option (List Char × List Char) :=
  match line with
  | c0 :: c1 :: rest =>
    if isAsciiLower c0 && termClassChar c1 then lazyTermScan k [c1, c0] rest else none
  | _ => none

/-- Pattern 1: `^([a-z][a-z\s,'\-]+?)(?:\s*\([^)]*\))?\s+([A-Z'"].*)`. -/
def tryPattern1 (line : List Char) : Option (List Char) :=
  match lazyTermStart restAfterTerm1 line with
  | some (g1, g2) =>
    let term := rstripDotComma (pystrip g1)
    if 2 ≤ term.length ∧ term.length ≤ 50 ∧ 10 ≤ g2.length then
      if _is_valid_term term then some term else none
    else none
  | none => none

/-- Rest-matcher of pattern 1b, `\s+\(`: whitespace then an opening
parenthesis; returns the suffix starting at the parenthesis
(Python's `line[m.end()-1:]`). -/
def matchWsThenParen (r : List Char) : Option (List Char) :=
  matchWsThen (fun c => c = '(') r

/-- `re.match(r'\([Ss]ee\s', s)`. -/
def startsParenSeeSpace (s : List Char) : Bool :=
  match s with
  | a :: b :: c :: d :: e :: _ =>
    a = '(' && (b = 'S' || b = 's') && c = 'e' && d = 'e' && pyIsSpace e
  | _ => false

/-- Pattern 1b: `^([a-z][a-z\s,'\-]+?)\s+\(` with the parenthetical
content beginning `(see` (case-flexible initial s). -/
def tryPattern1b (line : List Char) : Option (List Char) :=
  match lazyTermStart matchWsThenParen line with
  | some (g1, paren_content) =>
    let term := rstripDotComma (pystrip g1)
    if startsParenSeeSpace paren_content then
      if (2 ≤ term.length ∧ term.length ≤ 50) ∧ _is_valid_term term then some term
      else none
    else none
  | none => none

/-- One capitalized word `[A-Z][a-z]+` (maximal lowercase run);
returns the word and the remaining suffix. -/
def capWord (l : List Char) : Option (List Char × List Char) :=
  match l with
  | c :: cs =>
    if isAsciiUpper c then
      let run := cs.takeWhile isAsciiLower
      if run.isEmpty then none else some (c :: run, cs.drop run.length)
    else none
  | [] => none

/-- Further words of the greedy chain `(?:\s+[A-Z][a-z]+)*`; fuel-bounded
(each step consumes at least three characters, so `fuel = l.length`
at the call site suffices). -/
def capChainAux : Nat → List Char → List (List Char)
  | 0, _ => []
  | fuel + 1, l =>
    match l with
    | c :: _ =>
      if pyIsSpace c then
        match capWord (l.dropWhile pyIsSpace) with
        | some (w, rest) => w :: capChainAux fuel rest
        | none => []
      else []
    | [] => []

/-- Helper for `trimTrailing`, working on the reversed word list: drop
leading trim-words while more than one word remains. -/
def trimTrailingRevAux : List (List Char) → List (List Char)
  | [] => []
  | [x] => [x]
  | x :: y :: rest =>
    if pyLower x ∈ TRIM_LOWER then trimTrailingRevAux (y :: rest) else x :: y :: rest

/-- `while len(parts) > 1 and parts[-1].lower() in TRIM_LOWER: parts.pop()` -/
def trimTrailing (parts : List (List Char)) : List (List Char) :=
  (trimTrailingRevAux parts.reverse).reverse

/-- Pattern 2: `^([A-Z][a-z]+(?:\s+[A-Z][a-z]+)*)\s+([A-Z][a-z].*)`.
With greedy capture and backtracking this matches exactly when the line
starts with a chain of at least two whitespace-separated capitalized
words; group 1 is the chain minus its last word.  Trailing common words
are then trimmed from the captured words, and the remainder of the line
after the trimmed, space-rejoined term is checked. -/
def tryPattern2 (line : List Char) : Option (List Char) :=
  match capWord line with
  | some (w1, rest1) =>
    let ws := w1 :: capChainAux line.length rest1
    if 2 ≤ ws.length then
      let parts := trimTrailing (ws.take (ws.length - 1))
      let term := joinWith [' '] parts
      let rest := pystrip (line.drop term.length)
      if term.length ≤ 35 ∧ 10 ≤ rest.length then
        if !is_running_header term && _is_valid_term term then some term else none
      else none
    else none
  | none => none

/-- Rest-matcher of pattern 3, `\s+[Ss]ee\s+`. -/
def matchWsSeeWs (r : List Char) : Option (List Char) :=
  match matchWsThen (fun c => c = 'S' || c = 's') r with
  | some (_ :: e1 :: e2 :: w :: rest) =>
    if e1 = 'e' && e2 = 'e' && pyIsSpace w then some (w :: rest) else none
  | _ => none

/-- Pattern 3: `^([a-z][a-z\s,'\-]+?)\s+[Ss]ee\s+` (cross-reference). -/
def tryPattern3 (line : List Char) : Option (List Char) :=
  match lazyTermStart matchWsSeeWs line with
  | some (g1, _) =>
    let term := rstripDotComma (pystrip g1)
    if 2 ≤ term.length ∧ term.length ≤ 50 then some term else none
  | none => none

/-- Rest-matcher of pattern 4,
`\s+\([Ss]ee\s+(?:also\s+)?[^)]+\)`: after `(see` there must be a
whitespace character and then, with full backtracking of
`\s+(?:also\s+)?[^)]+`, a closing parenthesis at distance at least two
from it (one whitespace for `\s+`, at least one character for `[^)]+`,
none of them `)` since the first `)` closes). -/
def matchPattern4Rest (r : List Char) : Option Unit :=
  match matchWsThen (fun c => c = '(') r with
  | some (_ :: s :: e1 :: e2 :: r2) =>
    if (s = 'S' || s = 's') && e1 = 'e' && e2 = 'e' then
      match r2 with
      | w :: _ =>
        if pyIsSpace w then
          let upto := r2.takeWhile (fun d => !(d = ')'))
          if 2 ≤ upto.length ∧ upto.length < r2.length then some () else none
        else none
      | [] => none
    else none
  | _ => none

/-- Pattern 4: `^([a-z][a-z\s,'\-]+?)\s+\([Ss]ee\s+(?:also\s+)?[^)]+\)`. -/
def tryPattern4 (line : List Char) : Option (List Char) :=
  match lazyTermStart (fun r => (matchPattern4Rest r).map (fun _ => r)) line with
  | some (g1, _) =>
    let term := rstripDotComma (pystrip g1)
    if 2 ≤ term.length ∧ term.length ≤ 50 then some term else none
  | none => none

/-- `detect_entry_heading`: detect whether a block's first line starts a
new dictionary entry; five patterns tried in order, first match wins. -/
def detect_entry_heading (first_line : List Char) : Option (List Char) :=
  let line := pystrip first_line
  if line.length < 5 then none
  else
    match tryPattern1 line with
    | some t => some t
    | none =>
      match tryPattern1b line with
      | some t => some t
      | none =>
        match tryPattern2 line with
        | some t => some t
        | none =>
          match tryPattern3 line with
          | some t => some t
          | none => tryPattern4 line

/-! ### Definition cleaning and cross-reference classification -/

/-- `re.sub(r'\s+', ' ', text)`: replace each maximal whitespace run by
a single space.  The flag records whether the scan is inside a
whitespace run whose single `' '` has already been emitted. -/
def collapseWsAux : Bool → List Char → List Char
  | _, [] => []
  | inRun, c :: cs =>
    if pyIsSpace c then
      if inRun then collapseWsAux true cs else ' ' :: collapseWsAux true cs
    else c :: collapseWsAux false cs

def collapseWs (l : List Char) : List Char := collapseWsAux false l

/-- `text.replace('  ', ' ')`: left-to-right, non-overlapping. -/
def replaceDoubleSpace : List Char → List Char
  | [] => []
  | [c] => [c]
  | a :: b :: cs =>
    if a = ' ' ∧ b = ' ' then ' ' :: replaceDoubleSpace cs
    else a :: replaceDoubleSpace (b :: cs)

/-- `clean_definition`: normalize whitespace, strip, remove soft
hyphens (the source removes `'\xad'` and `'­'`, the same
character, twice), fix double spaces. -/
def clean_definition (text : List Char) : List Char :=
  let t1 := pystrip (collapseWs text)
  let t2 := t1.filter (fun c => !(c = softHyphenChar))
  replaceDoubleSpace t2

/-- `re.match(r'^[Ss]ee\s+', d)`. -/
def startsSeeWs (d : List Char) : Bool :=
  match d with
  | s :: e1 :: e2 :: w :: _ =>
    (s = 'S' || s = 's') && e1 = 'e' && e2 = 'e' && pyIsSpace w
  | _ => false

/-- `re.match(r'^\([Ss]ee\s+', d)`. -/
def startsParenSeeWs (d : List Char) : Bool :=
  match d with
  | p :: rest => p = '(' && startsSeeWs rest
  | [] => false

/-- `is_cross_reference`: the definition is just a cross-reference. -/
def is_cross_reference (definition : List Char) : Bool :=
  let d := pystrip definition
  if startsSeeWs d && decide (d.length < 120) then true
  else if startsParenSeeWs d && decide (d.length < 120) then true
  else false

/-! ### Input data model (PyMuPDF block dictionaries) -/

structure Span where
  text : List Char
deriving DecidableEq

structure Line where
  spans : List Span
deriving DecidableEq

structure Block where
  btype : Nat
  lines : List Line
deriving DecidableEq

structure Page where
  blocks : List Block
deriving DecidableEq

structure Entry where
  term : List Char
  definition : List Char
  page : Nat
  is_cross_ref : Bool
deriving DecidableEq

/-- Concatenation of one line's spans. -/
def lineText (l : Line) : List Char :=
  (l.spans.map Span.text).flatten

/-- `get_block_text`: all text of a block, lines joined by newlines. -/
def get_block_text (b : Block) : List Char :=
  if b.btype ≠ 0 then []
  else joinWith [newlineChar] (b.lines.map lineText)

/-- Raw (unstripped) concatenation of the first line's spans. -/
def firstLineRaw (b : Block) : List Char :=
  match b.lines with
  | [] => []
  | l :: _ => lineText l

/-- `get_block_first_line`: the first line of a block, stripped. -/
def get_block_first_line (b : Block) : List Char :=
  if b.btype ≠ 0 then []
  else
    match b.lines with
    | [] => []
    | l :: _ => pystrip (lineText l)

/-! ### Entry accumulator (`extract_entries`) -/

/-- Page range of the dictionary content (0-indexed, end exclusive). -/
def DICT_START_PAGE : Nat := 8

def DICT_END_PAGE : Nat := 1804

/-- Traversal state of `extract_entries`: output list, open term
(`None` ↔ no entry open), buffered definition lines, current page. -/
structure ExState where
  entries : List Entry
  term : Option (List Char)
  defLines : List (List Char)
  page : Nat
deriving DecidableEq

def initState : ExState := ⟨[], none, [], 0⟩

/-- The flush of the open entry (`if current_term and
current_definition_lines: ... if definition: entries.append(...)`),
used both when a new heading fires and at end of input.  Python
truthiness: an empty term string or empty line list means no flush. -/
def flushPending (st : ExState) : List Entry :=
  match st.term with
  | some t =>
    if t.isEmpty || st.defLines.isEmpty then []
    else
      let definition := clean_definition (joinWith [' '] st.defLines)
      if definition.isEmpty then []
      else [⟨t, definition, st.page + 1, is_cross_reference definition⟩]
  | none => []

/-- All lines of a block, each stripped. -/
def blockLinesStripped (b : Block) : List (List Char) :=
  b.lines.map (fun l => pystrip (lineText l))

/-- Filter applied to definition lines: `if lt and not
is_running_header(lt) and not is_page_number(lt)`. -/
def lineKept (lt : List Char) : Bool :=
  !lt.isEmpty && !is_running_header lt && !is_page_number lt

/-- The per-block heading decision of the traversal loop: skip
non-text, empty, running-header and page-number blocks, otherwise run
the heading detector on the block's first line only. -/
def block_heading_outcome (b : Block) : Option (List Char) :=
  if b.btype ≠ 0 then none
  else
    let full_text := pystrip (get_block_text b)
    if full_text.isEmpty then none
    else
      let first_line := get_block_first_line b
      if first_line.isEmpty then none
      else if is_running_header full_text then none
      else if is_page_number (pystrip full_text) then none
      else detect_entry_heading first_line

/-- Process one block of a page (`page_num` is the 0-indexed page). -/
def processBlock (page_num : Nat) (st : ExState) (b : Block) : ExState :=
  if b.btype ≠ 0 then st
  else
    let full_text := pystrip (get_block_text b)
    if full_text.isEmpty then st
    else
      let first_line := get_block_first_line b
      if first_line.isEmpty then st
      else if is_running_header full_text then st
      else if is_page_number (pystrip full_text) then st
      else
        match detect_entry_heading first_line with
        | some detected_term =>
          let rest_of_first := pystrip (first_line.drop detected_term.length)
          let def_parts :=
            (if rest_of_first.isEmpty then [] else [rest_of_first]) ++
              ((blockLinesStripped b).drop 1).filter lineKept
          { entries := st.entries ++ flushPending st
            term := some detected_term
            defLines := def_parts
            page := page_num }
        | none =>
          match st.term with
          | some _ =>
            { st with defLines := st.defLines ++ (blockLinesStripped b).filter lineKept }
          | none => st

def processPage (st : ExState) (ip : Nat × Page) : ExState :=
  ip.2.blocks.foldl (processBlock ip.1) st

/-- The page/block traversal of `extract_entries` without the final
flush: pages `range(DICT_START_PAGE, min(DICT_END_PAGE, len(doc)))`. -/
def runBlocks (doc : List Page) : ExState :=
  ((doc.enum.take DICT_END_PAGE).drop DICT_START_PAGE).foldl processPage initState

/-- `extract_entries`: full traversal plus the end-of-input flush. -/
def extract_entries (doc : List Page) : List Entry :=
  let st := runBlocks doc
  st.entries ++ flushPending st

/-! ### Post-processor -/

/-- `term.endswith(('.', ':', ';'))`. -/
def endsInPunct (t : List Char) : Bool :=
  match t.getLast? with
  | some c => c = '.' || c = ':' || c = ';'
  | none => false

/-- The filter part of `post_process_entries`: an entry is accepted
(not dropped) iff it survives the six `continue` checks before the
duplicate merge. -/
def acceptEntry (e : Entry) : Bool :=
  !(decide (e.term.length < 2)) &&
  !(decide (e.definition.length < 10) && !e.is_cross_ref) &&
  !(endsInPunct e.term) &&
  !(decide (e.term.length > 60)) &&
  !(decide ((pySplit e.term).length = 1) && decide (pyLower e.term ∈ SINGLE_WORD_EXCLUSIONS)) &&
  _is_valid_term e.term

/-- The duplicate-merge step: `for prev in reversed(cleaned): if
prev['term'].lower() == term_lower: prev['definition'] += ' ' +
definition; break`.  `appendToFirstMatching` updates the first
matching entry; the source searches the reversed list, i.e. updates
the last matching entry. -/
def appendToFirstMatching : List Entry → List Char → List Char → List Entry
  | [], _, _ => []
  | e :: es, tl, d =>
    if pyLower e.term = tl then
      { e with definition := e.definition ++ ' ' :: d } :: es
    else e :: appendToFirstMatching es tl d

def appendToLastMatching (cleaned : List Entry) (tl d : List Char) : List Entry :=
  (appendToFirstMatching cleaned.reverse tl d).reverse

/-- The loop of `post_process_entries`: `cleaned` is the output so far,
`seen` the set (as a list) of lowered terms already accepted. -/
def ppLoop : List Entry → List Entry → List (List Char) → List Entry
  | [], cleaned, _ => cleaned
  | e :: rest, cleaned, seen =>
    if acceptEntry e then
      let term_lower := pyLower e.term
      if term_lower ∈ seen then
        ppLoop rest (appendToLastMatching cleaned term_lower e.definition) seen
      else
        ppLoop rest (cleaned ++ [e]) (term_lower :: seen)
    else ppLoop rest cleaned seen

/-- `post_process_entries`: clean up and deduplicate extracted entries. -/
def post_process_entries (entries : List Entry) : List Entry :=
  ppLoop entries [] []

/-! ### Claim-side definitions

These definitions follow the wording of the specification (not the
source); the theorems below compare them with the source
translations. -/

/-- Spec §4.5 wording of the post-processor: process accepted entries
in order; a duplicate (case-insensitive term already accepted) is
merged by appending its definition, space-joined, onto the **earliest**
accepted entry with that term and is discarded; new terms are appended,
so output order is first-acceptance order. -/
def postProcessSpecLoop : List Entry → List Entry → List Entry
  | [], cleaned => cleaned
  | e :: rest, cleaned =>
    if acceptEntry e then
      if cleaned.any (fun p => pyLower p.term = pyLower e.term) then
        postProcessSpecLoop rest (appendToFirstMatching cleaned (pyLower e.term) e.definition)
      else postProcessSpecLoop rest (cleaned ++ [e])
    else postProcessSpecLoop rest cleaned

def postProcessSpec (entries : List Entry) : List Entry :=
  postProcessSpecLoop entries []

/-- Pointwise form of the duplicate merge: update an entry iff its
lowered term matches. -/
def updIfMatch (tl d : List Char) (e : Entry) : Entry :=
  if pyLower e.term = tl then { e with definition := e.definition ++ ' ' :: d } else e

/-- The claim C4 reading of the term validator (spec §4.3 wording). -/
def termValidatorClaim (term : List Char) : Prop :=
  match pySplit term with
  | [] => False
  | w :: ws =>
    pyLower w ∉ SENTENCE_STARTERS ∧
    pyLower ((w :: ws).getLastD []) ∉ FRAG_ENDERS ∧
    (w :: ws).length ≤ 5 ∧
    (3 ≤ (w :: ws).length →
      (ws.map pyLower).countP (fun x => decide (x ∈ FRAG_INTERNALS)) < 2 ∧
        ∀ x ∈ ws.map pyLower, x ∉ FRAG_DECISIVE)

/-- The claim C5 reading of cross-reference classification: the
definition begins, case-insensitively, with `"See "` or `"(see "`, and
is under 120 characters. -/
def crossRefClaim (definition : List Char) : Prop :=
  (pyLower (definition.take 4) = "see ".toList ∨
    pyLower (definition.take 5) = "(see ".toList) ∧ definition.length < 120

/-- The amended C5 condition: the **stripped** definition begins with
`See`/`see` (only the initial letter is case-flexible) or
`(See`/`(see`, followed by at least one whitespace character (not
necessarily a space), and the stripped text is under 120 characters. -/
def crossRefAmended (definition : List Char) : Prop :=
  let d := pystrip definition
  ((d.take 3 = "See".toList ∨ d.take 3 = "see".toList) ∧
      (∃ c, (d.drop 3).head? = some c ∧ pyIsSpace c = true) ∨
    (d.take 4 = "(See".toList ∨ d.take 4 = "(see".toList) ∧
      (∃ c, (d.drop 4).head? = some c ∧ pyIsSpace c = true)) ∧
  d.length < 120

/-- The claim C6 reading of the running-header test: at least one
alphabetic character, uppercase fraction among alphabetic characters at
least 0.9, and the stripped (whitespace-trimmed) text length between 2
and 50. -/
def runningHeaderClaim (text : List Char) : Prop :=
  1 ≤ (text.filter pyIsAlpha).length ∧
  10 * (text.filter (fun c => pyIsAlpha c && pyIsUpper c)).length ≥
    9 * (text.filter pyIsAlpha).length ∧
  2 ≤ (pystrip text).length ∧ (pystrip text).length ≤ 50

/-- The amended C6 condition: as `runningHeaderClaim`, but the length
bound applies to the stripped text after additionally removing trailing
period characters (the source's `strip().rstrip('.')`). -/
def runningHeaderAmended (text : List Char) : Prop :=
  1 ≤ (text.filter pyIsAlpha).length ∧
  10 * (text.filter (fun c => pyIsAlpha c && pyIsUpper c)).length ≥
    9 * (text.filter pyIsAlpha).length ∧
  2 ≤ (rstripDots (pystrip text)).length ∧ (rstripDots (pystrip text)).length ≤ 50

/-- The claim C7 reading of the page-number test: the trimmed text is
exactly 1 to 4 **ASCII** digit characters. -/
def pageNumberClaim (text : List Char) : Prop :=
  1 ≤ (pystrip text).length ∧ (pystrip text).length ≤ 4 ∧
    ∀ c ∈ pystrip text, isAsciiDigit c = true

/-- The amended C7 condition: as `pageNumberClaim` but with Unicode
decimal digits (Python `\d`), as modelled by `pyIsDecimalDigit`. -/
def pageNumberAmended (text : List Char) : Prop :=
  1 ≤ (pystrip text).length ∧ (pystrip text).length ≤ 4 ∧
    ∀ c ∈ pystrip text, pyIsDecimalDigit c = true

/-! ### Concrete inputs used by witnesses and counterexamples -/

def emptyPage : Page := ⟨[]⟩

def mandrakeBlock1 : Block :=
  ⟨0, [⟨[⟨"mandrake The mandrake is a fertility symbol and protective charm.".toList⟩]⟩]⟩

def mandrakeBlock2 : Block :=
  ⟨0, [⟨[⟨"It was harvested under strict ritual conditions.".toList⟩]⟩]⟩

def docC2 : List Page := List.replicate 8 emptyPage ++ [⟨[mandrakeBlock1, mandrakeBlock2]⟩]

def zebraBlock : Block :=
  ⟨0, [⟨[⟨"zebra SEE halo. More text here ok.".toList⟩]⟩]⟩

def docZebra : List Page := List.replicate 8 emptyPage ++ [⟨[zebraBlock]⟩]

/-- A line of 35 capital letters (turns a whole block into a running
header without touching its first line). -/
def capsLineC1 : List Char := List.replicate 35 'A'

def blockC1A : Block := ⟨0, [⟨[⟨"ab See 9".toList⟩]⟩]⟩

def blockC1B : Block := ⟨0, [⟨[⟨"ab See 9".toList⟩]⟩, ⟨[⟨capsLineC1⟩]⟩]⟩

def blockC1W : Block :=
  ⟨0, [⟨[⟨"ab See 9".toList⟩]⟩, ⟨[⟨"and some ordinary continuation text".toList⟩]⟩]⟩

def phoenixBlock1 : Block :=
  ⟨0, [⟨[⟨"phoenix The phoenix is a mythical bird of rebirth.".toList⟩]⟩]⟩

def phoenixBlock2 : Block :=
  ⟨0, [⟨[⟨"It rises from its own ashes every cycle.".toList⟩]⟩]⟩

def docPhoenix : List Page := List.replicate 8 emptyPage ++ [⟨[phoenixBlock1, phoenixBlock2]⟩]

def entryPhoenix : Entry := ⟨"phoenix".toList, "def one".toList, 3, false⟩

def entryDragon : Entry := ⟨"dragon".toList, "def two".toList, 4, false⟩

/-- The definition buffer accumulated for the phoenix document when its
block stream ends. -/
def phoenixBuffer : List (List Char) :=
  ["The phoenix is a mythical bird of rebirth.".toList,
   "It rises from its own ashes every cycle.".toList]

/-! ## Theorems -/

/-! ### General helper lemmas -/

theorem get_block_first_line_eq_raw (b : Block) (h : b.btype = 0) :
    get_block_first_line b = pystrip (firstLineRaw b) := by
  unfold get_block_first_line firstLineRaw
  rcases hb : b.lines with _ | ⟨l, ls⟩ <;> simp [h, hb, pystrip]

/-! ### C1: heading detection and the block's remaining lines -/

/-- C1 (counterexample): two text blocks with identical first lines for
which the heading-detection outcome differs — the second block's extra
all-caps line turns the whole block into a running header, which
suppresses detection.  So detection is not a function of the first line
alone. -/
theorem headingOutcomeCounterexample :
    firstLineRaw blockC1A = firstLineRaw blockC1B ∧
    blockC1A.btype = 0 ∧ blockC1B.btype = 0 ∧
    block_heading_outcome blockC1A = some ("ab".toList) ∧
    block_heading_outcome blockC1B = none :=
  ⟨by decide, rfl, rfl, by decide, by decide⟩

/-- C1 (amended): for text blocks that pass the block-level filters
(nonempty text, not a running header, not a page number), the
heading-detection outcome depends only on the concatenation of the
first line's spans: identical first lines give identical outcomes
regardless of the blocks' remaining lines. -/
theorem headingOutcomeFirstLineOnly (b1 b2 : Block)
    (ht1 : b1.btype = 0) (ht2 : b2.btype = 0)
    (hne1 : (pystrip (get_block_text b1)).isEmpty = false)
    (hne2 : (pystrip (get_block_text b2)).isEmpty = false)
    (hrh1 : is_running_header (pystrip (get_block_text b1)) = false)
    (hrh2 : is_running_header (pystrip (get_block_text b2)) = false)
    (hpn1 : is_page_number (pystrip (pystrip (get_block_text b1))) = false)
    (hpn2 : is_page_number (pystrip (pystrip (get_block_text b2))) = false)
    (hfl : firstLineRaw b1 = firstLineRaw b2) :
    block_heading_outcome b1 = block_heading_outcome b2 := by
  unfold block_heading_outcome
  simp only [ht1, ht2, hne1, hne2, hrh1, hrh2, hpn1, hpn2,
    get_block_first_line_eq_raw b1 ht1, get_block_first_line_eq_raw b2 ht2, hfl]

/-- C1 (witness): the amended theorem applies to two distinct concrete
blocks sharing a first line. -/
theorem headingOutcomeFirstLineOnlyWitness :
    block_heading_outcome blockC1A = block_heading_outcome blockC1W :=
  headingOutcomeFirstLineOnly blockC1A blockC1W rfl rfl (by decide) (by decide)
    (by decide) (by decide) (by decide) (by decide) (by decide)

/-! ### C2: the two-block mandrake pipeline -/

/-- C2: on the two-block mandrake input, the full pipeline (heading
detection, accumulation, finalization, post-processing) produces
exactly one entry with the claimed term, definition and
`is_cross_ref = false`. -/
theorem pipelineMandrake :
    post_process_entries (extract_entries docC2) =
      [⟨"mandrake".toList,
        "The mandrake is a fertility symbol and protective charm. It was harvested under strict ritual conditions.".toList,
        9, false⟩] := by decide

/-! ### C4: the term validator -/

/-- C4: the Term Validator accepts a (nonempty-worded) candidate term
iff the first word is not a sentence starter, the last word is not a
fragment ender, there are at most 5 words, and for terms of at least 3
words fewer than 2 internal words are fragment fillers and no internal
word is one of "the"/"is"/"was"/"are"/"were". -/
theorem validTermIff (term : List Char) (h : pySplit term ≠ []) :
    _is_valid_term term = true ↔ termValidatorClaim term := by
  unfold _is_valid_term termValidatorClaim
  rcases hs : pySplit term with _ | ⟨w, ws⟩
  · exact absurd hs h
  · simp only [List.length_cons]
    split_ifs with h1 h2 h3 h4 h5 h6 <;>
      simp_all [List.any_eq_true, Nat.lt_iff_add_one_le]

/-- C4 (witness): the validator theorem applied to "aqua vitae". -/
theorem validTermIffWitness :
    _is_valid_term ("aqua vitae".toList) = true ↔ termValidatorClaim ("aqua vitae".toList) :=
  validTermIff ("aqua vitae".toList) (by decide)

/-! ### C6: the running-header test -/

theorem filter_length_dropWhile (p q : Char → Bool) (l : List Char)
    (h : ∀ c, q c = true → p c = false) :
    ((l.dropWhile q).filter p).length = (l.filter p).length := by
  conv_rhs => rw [← List.takeWhile_append_dropWhile q l]
  rw [List.filter_append, List.length_append]
  have ht : (l.takeWhile q).filter p = [] :=
    List.filter_eq_nil_iff.mpr (fun a ha => by simp [h a (List.mem_takeWhile_imp ha)])
  simp [ht]

theorem filter_length_rdropWhile (p q : Char → Bool) (l : List Char)
    (h : ∀ c, q c = true → p c = false) :
    ((List.rdropWhile q l).filter p).length = (l.filter p).length := by
  unfold List.rdropWhile
  rw [List.filter_reverse, List.length_reverse, filter_length_dropWhile p q _ h,
    List.filter_reverse, List.length_reverse]

theorem filter_length_pystrip (p : Char → Bool) (l : List Char)
    (h : ∀ c, pyIsSpace c = true → p c = false) :
    ((pystrip l).filter p).length = (l.filter p).length := by
  unfold pystrip
  rw [filter_length_rdropWhile p pyIsSpace _ h, filter_length_dropWhile p pyIsSpace _ h]

theorem space_not_alpha (c : Char) : pyIsSpace c = true → pyIsAlpha c = false := by
  intro h
  simp only [pyIsSpace, decide_eq_true_eq] at h
  simp only [pyIsAlpha, decide_eq_false_iff_not]
  omega

theorem dot_not_alpha (c : Char) : decide (c = '.') = true → pyIsAlpha c = false := by
  intro h
  simp only [decide_eq_true_eq] at h
  subst h
  decide

theorem space_not_alphaUpper (c : Char) :
    pyIsSpace c = true → (pyIsAlpha c && pyIsUpper c) = false := by
  intro h
  simp [space_not_alpha c h]

theorem dot_not_alphaUpper (c : Char) :
    decide (c = '.') = true → (pyIsAlpha c && pyIsUpper c) = false := by
  intro h
  simp [dot_not_alpha c h]

/-- The alphabetic characters of the source's `stripped` (strip plus
trailing-dot removal) are in bijection with those of the raw text. -/
theorem stripped_alpha_length (text : List Char) :
    ((rstripDots (pystrip text)).filter pyIsAlpha).length =
      (text.filter pyIsAlpha).length := by
  unfold rstripDots
  rw [filter_length_rdropWhile pyIsAlpha _ _ dot_not_alpha,
    filter_length_pystrip pyIsAlpha _ space_not_alpha]

theorem stripped_alphaUpper_length (text : List Char) :
    ((rstripDots (pystrip text)).filter (fun c => pyIsAlpha c && pyIsUpper c)).length =
      (text.filter (fun c => pyIsAlpha c && pyIsUpper c)).length := by
  unfold rstripDots
  rw [filter_length_rdropWhile _ _ _ dot_not_alphaUpper,
    filter_length_pystrip _ _ space_not_alphaUpper]

/-- C6 (counterexample): for the text "A." the running-header test
returns false (the source measures the length after stripping trailing
periods, giving 1), yet the claim's conditions — at least one
alphabetic character, uppercase fraction ≥ 0.9, whitespace-stripped
length in [2, 50] — all hold. -/
theorem runningHeaderCounterexample :
    is_running_header ("A.".toList) = false ∧ runningHeaderClaim ("A.".toList) := by
  constructor
  · decide
  · refine ⟨by decide, by decide, by decide, by decide⟩

/-- C6 (amended): the running-header test returns true iff the text has
at least one alphabetic character, the uppercase fraction among its
alphabetic characters is at least 0.9, and the stripped text — after
additionally removing trailing period characters, as the source does —
has length between 2 and 50. -/
theorem runningHeaderIff (text : List Char) :
    is_running_header text = true ↔ runningHeaderAmended text := by
  have hA := stripped_alpha_length text
  have hU := stripped_alphaUpper_length text
  unfold is_running_header runningHeaderAmended
  dsimp only
  split_ifs with he ha
  · simp only [Bool.false_eq_true, false_iff]
    intro hcl
    rw [List.isEmpty_iff] at he
    rw [he] at hA
    simp at hA
    omega
  · simp only [Bool.false_eq_true, false_iff]
    intro hcl
    rw [List.isEmpty_iff] at ha
    rw [ha] at hA
    simp at hA
    omega
  · rw [decide_eq_true_eq]
    have hup : ((rstripDots (pystrip text)).filter pyIsAlpha).filter pyIsUpper =
        (rstripDots (pystrip text)).filter (fun c => pyIsAlpha c && pyIsUpper c) := by
      rw [List.filter_filter]
      exact List.filter_congr (fun c _ => Bool.and_comm (pyIsUpper c) (pyIsAlpha c))
    rw [hup, hU, hA]
    have hne : ((rstripDots (pystrip text)).filter pyIsAlpha).length ≠ 0 := by
      intro h0
      rw [List.length_eq_zero] at h0
      rw [List.isEmpty_iff] at ha
      exact ha h0
    constructor
    · rintro ⟨h1, h2, h3⟩
      refine ⟨by omega, h1, h2, h3⟩
    · rintro ⟨h0, h1, h2, h3⟩
      exact ⟨h1, h2, h3⟩

/-! ### C7: the page-number test -/

theorem pystrip_last_not_space (l : List Char) (c : Char)
    (h : (pystrip l).getLast? = some c) : pyIsSpace c = false := by
  have hne : pystrip l ≠ [] := by
    intro h0
    rw [h0] at h
    simp at h
  have h2 := List.getLast?_eq_getLast (pystrip l) hne
  rw [h2, Option.some.injEq] at h
  have h3 : ¬ pyIsSpace ((pystrip l).getLast hne) = true :=
    List.rdropWhile_last_not pyIsSpace (l.dropWhile pyIsSpace) hne
  rw [h] at h3
  simpa using h3

/-- C7 (counterexample): the Arabic-Indic digit U+0663 is matched by
Python's `\d`, so the page-number test accepts it, although it is not
an ASCII digit as the claim requires. -/
theorem pageNumberCounterexample :
    is_page_number [Char.ofNat 1635] = true ∧ ¬ pageNumberClaim [Char.ofNat 1635] := by
  constructor
  · decide
  · intro h
    rcases h with ⟨h1, h2, h3⟩
    have := h3 (Char.ofNat 1635) (by decide)
    revert this
    decide

/-- C7 (amended): the page-number test returns true iff the trimmed
text consists of exactly 1 to 4 Unicode decimal digit characters
(Python `\d`), not ASCII digits only. -/
theorem pageNumberIff (text : List Char) :
    is_page_number text = true ↔ pageNumberAmended text := by
  unfold is_page_number reMatchDigits14 pageNumberAmended
  rcases hL : (pystrip text).getLast? with _ | c
  · have h0 : pystrip text = [] := List.getLast?_eq_none_iff.mp hL
    rw [h0]
    simp
  · have hc : pyIsSpace c = false := pystrip_last_not_space text c hL
    have hcn : ¬ (c = newlineChar) := by
      intro h
      rw [h] at hc
      exact absurd hc (by decide)
    dsimp only
    rw [if_neg hcn]
    unfold reDigits14Core
    simp [List.all_eq_true, and_assoc]

/-! ### C5: cross-reference classification -/

theorem startsSeeWsIff (s : List Char) :
    startsSeeWs s = true ↔
      ((s.take 3 = "See".toList ∨ s.take 3 = "see".toList) ∧
        ∃ c, (s.drop 3).head? = some c ∧ pyIsSpace c = true) := by
  rcases s with _ | ⟨a, _ | ⟨b, _ | ⟨c, _ | ⟨w, rest⟩⟩⟩⟩ <;>
    simp [startsSeeWs, List.take, List.drop] <;> tauto

theorem startsParenSeeWsIff (s : List Char) :
    startsParenSeeWs s = true ↔
      ((s.take 4 = "(See".toList ∨ s.take 4 = "(see".toList) ∧
        ∃ c, (s.drop 4).head? = some c ∧ pyIsSpace c = true) := by
  rcases s with _ | ⟨p, s'⟩
  · simp [startsParenSeeWs]
  · rw [show startsParenSeeWs (p :: s') = (decide (p = '(') && startsSeeWs s') from rfl]
    rcases s' with _ | ⟨a, _ | ⟨b, _ | ⟨c, _ | ⟨w, rest⟩⟩⟩⟩ <;>
      simp [startsSeeWs, List.take, List.drop] <;> tauto

/-- C5 (counterexample): the pipeline finalizes an entry whose cleaned
definition is "SEE halo. More text here ok." with `is_cross_ref =
false` (the source's `[Ss]ee` regex is only case-flexible in the
initial letter), although the definition begins, case-insensitively,
with "See " and is under 120 characters, so the claim would make it a
cross-reference. -/
theorem crossRefCounterexample :
    extract_entries docZebra =
      [⟨"zebra".toList, "SEE halo. More text here ok.".toList, 9, false⟩] ∧
    crossRefClaim ("SEE halo. More text here ok.".toList) := by
  constructor
  · decide
  · constructor
    · left
      decide
    · decide

/-- C5 (amended): `is_cross_reference` returns true iff the stripped
definition begins with "See"/"see" or "(See"/"(see" — only the initial
letter is case-flexible — followed by at least one whitespace
character, and the stripped definition is under 120 characters. -/
theorem crossRefIff (definition : List Char) :
    is_cross_reference definition = true ↔ crossRefAmended definition := by
  unfold is_cross_reference crossRefAmended
  dsimp only
  split_ifs with h1 h2 <;>
    simp_all [startsSeeWsIff, startsParenSeeWsIff, Bool.and_eq_true, decide_eq_true_eq] <;>
      tauto

/-! ### C8: idempotence of definition cleaning -/

/-- Adjacent characters of a normalized string are never both
whitespace. -/
def noTwoWs (a b : Char) : Prop := ¬(pyIsSpace a = true ∧ pyIsSpace b = true)

theorem mem_collapseWsAux (b : Bool) (l : List Char) (c : Char)
    (h : c ∈ collapseWsAux b l) : c ∈ l ∨ c = ' ' := by
  induction l generalizing b with
  | nil => simp [collapseWsAux] at h
  | cons x xs ih =>
    unfold collapseWsAux at h
    by_cases hx : pyIsSpace x = true
    · rw [if_pos hx] at h
      cases b with
      | true =>
        rcases ih true h with h2 | h2
        · exact Or.inl (List.mem_cons_of_mem x h2)
        · exact Or.inr h2
      | false =>
        rw [if_neg Bool.false_ne_true] at h
        rcases List.mem_cons.mp h with h2 | h2
        · exact Or.inr h2
        · rcases ih true h2 with h3 | h3
          · exact Or.inl (List.mem_cons_of_mem x h3)
          · exact Or.inr h3
    · rw [if_neg hx] at h
      rcases List.mem_cons.mp h with h2 | h2
      · exact Or.inl (h2 ▸ List.mem_cons_self x xs)
      · rcases ih false h2 with h3 | h3
        · exact Or.inl (List.mem_cons_of_mem x h3)
        · exact Or.inr h3

theorem space_mem_collapseWsAux (b : Bool) (l : List Char) (c : Char)
    (h : c ∈ collapseWsAux b l) (hs : pyIsSpace c = true) : c = ' ' := by
  induction l generalizing b with
  | nil => simp [collapseWsAux] at h
  | cons x xs ih =>
    unfold collapseWsAux at h
    by_cases hx : pyIsSpace x = true
    · rw [if_pos hx] at h
      cases b with
      | true => exact ih true h
      | false =>
        rw [if_neg Bool.false_ne_true] at h
        rcases List.mem_cons.mp h with h2 | h2
        · exact h2
        · exact ih true h2
    · rw [if_neg hx] at h
      rcases List.mem_cons.mp h with h2 | h2
      · exact absurd (h2 ▸ hs) (by simp [hx])
      · exact ih false h2

theorem head_collapseWsAux_true (l : List Char) (y : Char)
    (h : (collapseWsAux true l).head? = some y) : pyIsSpace y = false := by
  induction l with
  | nil => simp [collapseWsAux] at h
  | cons x xs ih =>
    unfold collapseWsAux at h
    by_cases hx : pyIsSpace x = true
    · rw [if_pos hx] at h
      exact ih h
    · rw [if_neg hx] at h
      simp only [List.head?_cons, Option.some.injEq] at h
      rw [← h]
      exact Bool.eq_false_iff.mpr hx

theorem chain'_collapseWsAux (b : Bool) (l : List Char) :
    List.Chain' noTwoWs (collapseWsAux b l) := by
  induction l generalizing b with
  | nil => simp [collapseWsAux]
  | cons x xs ih =>
    unfold collapseWsAux
    by_cases hx : pyIsSpace x = true
    · rw [if_pos hx]
      cases b with
      | true => exact ih true
      | false =>
        rw [if_neg Bool.false_ne_true]
        rw [List.chain'_cons']
        refine ⟨fun y hy => ?_, ih true⟩
        have hns := head_collapseWsAux_true xs y hy
        exact fun hc => by simp [hns] at hc
    · rw [if_neg hx]
      rw [List.chain'_cons']
      refine ⟨fun y hy => ?_, ih false⟩
      exact fun hc => by simp [hx] at hc

/-- On a list whose head is not whitespace (or which is empty), the
in-run flag makes no difference. -/
theorem collapseWsAux_flag_irrel (l : List Char)
    (h : ∀ y, l.head? = some y → pyIsSpace y = false) :
    collapseWsAux true l = collapseWsAux false l := by
  cases l with
  | nil => rfl
  | cons x xs =>
    have hx : pyIsSpace x = false := h x rfl
    unfold collapseWsAux
    rw [if_neg (by simp [hx]), if_neg (by simp [hx])]

/-- Collapsing is the identity on normalized text (all whitespace is a
single space, no two adjacent). -/
theorem collapseWsAux_eq_self (l : List Char)
    (hsp : ∀ c ∈ l, pyIsSpace c = true → c = ' ')
    (hch : List.Chain' noTwoWs l) :
    collapseWsAux false l = l := by
  induction l with
  | nil => rfl
  | cons x xs ih =>
    unfold collapseWsAux
    by_cases hx : pyIsSpace x = true
    · rw [if_pos hx, if_neg (by simp)]
      have hxsp : x = ' ' := hsp x (List.mem_cons_self x xs) hx
      have hxs : ∀ y, xs.head? = some y → pyIsSpace y = false := by
        intro y hy
        rcases xs with _ | ⟨z, zs⟩
        · simp at hy
        · simp only [List.head?_cons, Option.some.injEq] at hy
          rw [List.chain'_cons] at hch
          rcases hch with ⟨hxy, _⟩
          subst hy
          by_contra hcon
          exact hxy ⟨hx, Bool.not_eq_false _ |>.mp hcon⟩
      rw [collapseWsAux_flag_irrel xs hxs,
        ih (fun c hc hc2 => hsp c (List.mem_cons_of_mem x hc) hc2) (List.Chain'.tail hch)]
      rw [hxsp]
    · rw [if_neg hx]
      rw [ih (fun c hc hc2 => hsp c (List.mem_cons_of_mem x hc) hc2) (List.Chain'.tail hch)]

/-- Double-space replacement is the identity on normalized text. -/
theorem replaceDoubleSpace_eq_self (l : List Char)
    (hch : List.Chain' noTwoWs l) :
    replaceDoubleSpace l = l := by
  induction l with
  | nil => rfl
  | cons x xs ih =>
    cases xs with
    | nil => rfl
    | cons y ys =>
      unfold replaceDoubleSpace
      rw [List.chain'_cons] at hch
      rcases hch with ⟨hxy, htail⟩
      have hcond : ¬(x = ' ' ∧ y = ' ') := by
        rintro ⟨hx, hy⟩
        exact hxy ⟨by rw [hx]; decide, by rw [hy]; decide⟩
      rw [if_neg hcond]
      rw [ih htail]

theorem mem_pystrip (m : List Char) (x : Char) (h : x ∈ pystrip m) : x ∈ m := by
  unfold pystrip at h
  have h1 : x ∈ m.dropWhile pyIsSpace :=
    ( List.rdropWhile_prefix pyIsSpace (m.dropWhile pyIsSpace)).sublist.subset h
  exact (List.dropWhile_suffix pyIsSpace).sublist.subset h1

theorem pystrip_head_not_space (m : List Char) (c : Char)
    (h : (pystrip m).head? = some c) : pyIsSpace c = false := by
  have hne : pystrip m ≠ [] := by
    intro h0
    rw [h0] at h
    simp at h
  have hpre : pystrip m <+: m.dropWhile pyIsSpace :=
    List.rdropWhile_prefix pyIsSpace (m.dropWhile pyIsSpace)
  have hne2 : m.dropWhile pyIsSpace ≠ [] := by
    intro h0
    rcases hpre with ⟨t, ht⟩
    rw [h0] at ht
    rcases List.append_eq_nil.mp ht with ⟨h1, _⟩
    exact hne h1
  have hh := List.IsPrefix.head hpre hne
  rw [List.head?_eq_head hne, Option.some.injEq] at h
  rw [← h]
  rw [hh]
  exact List.head_dropWhile_not pyIsSpace m hne2

/-- Collapsing then stripping yields normalized text; cleaning it again
changes nothing.  This is the inner step of the amended idempotence
claim. -/
theorem clean_definition_of_normalized (l : List Char)
    (hsp : ∀ c ∈ l, pyIsSpace c = true → c = ' ')
    (hch : List.Chain' noTwoWs l)
    (hh : ∀ c, l.head? = some c → pyIsSpace c = false)
    (hl : ∀ c, l.getLast? = some c → pyIsSpace c = false)
    (hx : softHyphenChar ∉ l) :
    clean_definition l = l := by
  have hcol : collapseWs l = l := collapseWsAux_eq_self l hsp hch
  have hdrop : l.dropWhile pyIsSpace = l := by
    cases l with
    | nil => rfl
    | cons x xs => rw [List.dropWhile_cons, if_neg (by simp [hh x rfl])]
  have hrdrop : List.rdropWhile pyIsSpace l = l := by
    rw [List.rdropWhile_eq_self_iff]
    intro hne
    have := hl (l.getLast hne) (List.getLast?_eq_getLast l hne)
    simp [this]
  have hstrip : pystrip l = l := by
    unfold pystrip
    rw [hdrop, hrdrop]
  have hfil : l.filter (fun c => !(c = softHyphenChar)) = l := by
    rw [List.filter_eq_self]
    intro a ha
    simp only [Bool.not_eq_true']
    exact decide_eq_false (fun hc => hx (hc ▸ ha))
  unfold clean_definition
  dsimp only
  rw [hcol, hstrip, hfil, replaceDoubleSpace_eq_self l hch]

/-- C8 (counterexample): cleaning is not idempotent.  For the string
soft-hyphen, space, soft-hyphen, one application yields a single
space (whitespace collapsing and stripping happen before soft-hyphen
removal), and a second application yields the empty string. -/
theorem cleanNotIdempotent :
    clean_definition (clean_definition [softHyphenChar, ' ', softHyphenChar]) ≠
      clean_definition [softHyphenChar, ' ', softHyphenChar] := by decide

/-- C8 (amended): cleaning is idempotent on every string that contains
no soft-hyphen character. -/
theorem cleanIdempotentNoSoftHyphen (s : List Char) (h : softHyphenChar ∉ s) :
    clean_definition (clean_definition s) = clean_definition s := by
  have hsp : ∀ c ∈ pystrip (collapseWs s), pyIsSpace c = true → c = ' ' :=
    fun c hc hs => space_mem_collapseWsAux false s c (mem_pystrip _ c hc) hs
  have hch : List.Chain' noTwoWs (pystrip (collapseWs s)) := by
    have h1 : List.Chain' noTwoWs (collapseWs s) := chain'_collapseWsAux false s
    have h2 : List.Chain' noTwoWs ((collapseWs s).dropWhile pyIsSpace) :=
      List.Chain'.suffix h1 (List.dropWhile_suffix pyIsSpace)
    exact List.Chain'.prefix h2
      ( List.rdropWhile_prefix pyIsSpace ((collapseWs s).dropWhile pyIsSpace))
  have hxmem : softHyphenChar ∉ pystrip (collapseWs s) := by
    intro hmem
    rcases mem_collapseWsAux false s softHyphenChar (mem_pystrip _ _ hmem) with h1 | h1
    · exact h h1
    · exact absurd h1 (by decide)
  have hfil : (pystrip (collapseWs s)).filter (fun c => !(c = softHyphenChar)) =
      pystrip (collapseWs s) := by
    rw [List.filter_eq_self]
    intro a ha
    simp only [Bool.not_eq_true']
    exact decide_eq_false (fun hc => hxmem (hc ▸ ha))
  have hclean : clean_definition s = pystrip (collapseWs s) := by
    unfold clean_definition
    dsimp only
    rw [hfil, replaceDoubleSpace_eq_self _ hch]
  rw [hclean]
  exact clean_definition_of_normalized (pystrip (collapseWs s)) hsp hch
    (pystrip_head_not_space (collapseWs s)) (pystrip_last_not_space (collapseWs s)) hxmem

/-- C8 (witness): idempotence on a concrete soft-hyphen-free string. -/
theorem cleanIdempotentWitness :
    softHyphenChar ∉ (" a  b ".toList) ∧
      clean_definition (clean_definition (" a  b ".toList)) =
        clean_definition (" a  b ".toList) :=
  ⟨by decide, cleanIdempotentNoSoftHyphen (" a  b ".toList) (by decide)⟩

/-! ### C3 and C10: post-processor merge behaviour -/

/-- Lowered-term inequality: the pairwise relation of post-merge
uniqueness. -/
def distinctLowerTerm (a b : Entry) : Prop := pyLower a.term ≠ pyLower b.term

theorem updIfMatch_term (tl d : List Char) (e : Entry) :
    (updIfMatch tl d e).term = e.term := by
  unfold updIfMatch
  split <;> rfl

theorem updIfMatch_page (tl d : List Char) (e : Entry) :
    (updIfMatch tl d e).page = e.page := by
  unfold updIfMatch
  split <;> rfl

theorem updIfMatch_is_cross_ref (tl d : List Char) (e : Entry) :
    (updIfMatch tl d e).is_cross_ref = e.is_cross_ref := by
  unfold updIfMatch
  split <;> rfl

theorem map_updIfMatch_of_no_match (l : List Entry) (tl d : List Char)
    (h : ∀ e ∈ l, pyLower e.term ≠ tl) : l.map (updIfMatch tl d) = l := by
  induction l with
  | nil => rfl
  | cons e es ih =>
    simp only [List.map_cons]
    rw [show updIfMatch tl d e = e from
        by unfold updIfMatch; rw [if_neg (h e (List.mem_cons_self e es))],
      ih (fun x hx => h x (List.mem_cons_of_mem e hx))]

theorem appendToFirstMatching_eq_map (l : List Entry) (tl d : List Char)
    (hpw : l.Pairwise distinctLowerTerm) :
    appendToFirstMatching l tl d = l.map (updIfMatch tl d) := by
  induction l with
  | nil => rfl
  | cons e es ih =>
    rw [List.pairwise_cons] at hpw
    rcases hpw with ⟨hhd, htl⟩
    unfold appendToFirstMatching
    by_cases hm : pyLower e.term = tl
    · rw [if_pos hm]
      simp only [List.map_cons]
      rw [show updIfMatch tl d e = { e with definition := e.definition ++ ' ' :: d } from
          by unfold updIfMatch; rw [if_pos hm]]
      rw [map_updIfMatch_of_no_match es tl d (fun x hx => by
        rw [← hm]
        exact fun hc => hhd x hx hc.symm)]
    · rw [if_neg hm]
      simp only [List.map_cons]
      rw [show updIfMatch tl d e = e from by unfold updIfMatch; rw [if_neg hm],
        ih htl]

theorem pairwise_distinct_reverse (l : List Entry)
    (h : l.Pairwise distinctLowerTerm) : l.reverse.Pairwise distinctLowerTerm := by
  rw [List.pairwise_reverse]
  exact h.imp (fun hab => Ne.symm hab)

theorem appendToLastMatching_eq_map (l : List Entry) (tl d : List Char)
    (hpw : l.Pairwise distinctLowerTerm) :
    appendToLastMatching l tl d = l.map (updIfMatch tl d) := by
  unfold appendToLastMatching
  rw [appendToFirstMatching_eq_map l.reverse tl d (pairwise_distinct_reverse l hpw),
    ← List.map_reverse, List.reverse_reverse]

theorem lower_terms_map_updIfMatch (l : List Entry) (tl d : List Char) :
    (l.map (updIfMatch tl d)).map (fun e => pyLower e.term) =
      l.map (fun e => pyLower e.term) := by
  rw [List.map_map]
  exact List.map_congr_left (fun e _ => by simp [updIfMatch_term])

theorem pairwise_map_updIfMatch (l : List Entry) (tl d : List Char)
    (hpw : l.Pairwise distinctLowerTerm) :
    (l.map (updIfMatch tl d)).Pairwise distinctLowerTerm := by
  rw [List.pairwise_map]
  exact hpw.imp (fun {a b} hab => by
    unfold distinctLowerTerm at *
    rwa [updIfMatch_term, updIfMatch_term])

/-- Main induction for C3: with `seen` mirroring the lowered terms of
`cleaned` and `cleaned` duplicate-free, the source loop agrees with the
spec-worded loop (merge onto the earliest match) and preserves
uniqueness. -/
theorem ppLoop_eq_specLoop (es : List Entry) :
    ∀ (cleaned : List Entry) (seen : List (List Char)),
    (∀ t, t ∈ seen ↔ ∃ e ∈ cleaned, pyLower e.term = t) →
    cleaned.Pairwise distinctLowerTerm →
    ppLoop es cleaned seen = postProcessSpecLoop es cleaned ∧
      (ppLoop es cleaned seen).Pairwise distinctLowerTerm := by
  induction es with
  | nil => exact fun cleaned seen _ hpw => ⟨rfl, hpw⟩
  | cons e rest ih =>
    intro cleaned seen hseen hpw
    simp only [ppLoop, postProcessSpecLoop]
    by_cases hacc : acceptEntry e = true
    · rw [if_pos hacc, if_pos hacc]
      have hcond : (pyLower e.term ∈ seen) ↔
          (cleaned.any (fun p => pyLower p.term = pyLower e.term) = true) := by
        rw [hseen, List.any_eq_true]
        constructor
        · rintro ⟨p, hp, hpe⟩
          exact ⟨p, hp, by simp [hpe]⟩
        · rintro ⟨p, hp, hpe⟩
          simp only [decide_eq_true_eq] at hpe
          exact ⟨p, hp, hpe⟩
      by_cases hmem : pyLower e.term ∈ seen
      · rw [if_pos hmem, if_pos (hcond.mp hmem)]
        rw [appendToLastMatching_eq_map cleaned _ _ hpw,
          appendToFirstMatching_eq_map cleaned _ _ hpw]
        refine ih (cleaned.map (updIfMatch (pyLower e.term) e.definition)) seen ?_ ?_
        · intro t
          rw [hseen]
          constructor
          · rintro ⟨p, hp, hpe⟩
            exact ⟨updIfMatch (pyLower e.term) e.definition p, List.mem_map_of_mem _ hp,
              by rw [updIfMatch_term]; exact hpe⟩
          · rintro ⟨p, hp, hpe⟩
            rcases List.mem_map.mp hp with ⟨q, hq, hqe⟩
            exact ⟨q, hq, by rw [← hqe] at hpe; rwa [updIfMatch_term] at hpe⟩
        · exact pairwise_map_updIfMatch cleaned _ _ hpw
      · rw [if_neg hmem, if_neg (fun hc => hmem (hcond.mpr hc))]
        refine ih (cleaned ++ [e]) (pyLower e.term :: seen) ?_ ?_
        · intro t
          constructor
          · intro ht
            rcases List.mem_cons.mp ht with rfl | hts
            · exact ⟨e, List.mem_append.mpr (Or.inr (List.mem_singleton.mpr rfl)), rfl⟩
            · rcases (hseen t).mp hts with ⟨p, hp, hpe⟩
              exact ⟨p, List.mem_append.mpr (Or.inl hp), hpe⟩
          · rintro ⟨p, hp, hpe⟩
            rcases List.mem_append.mp hp with hp1 | hp2
            · exact List.mem_cons_of_mem _ ((hseen t).mpr ⟨p, hp1, hpe⟩)
            · rw [List.mem_singleton] at hp2
              subst hp2
              subst hpe
              exact List.mem_cons_self _ _
        · rw [List.pairwise_append]
          refine ⟨hpw, by simp, fun a ha b hb => ?_⟩
          rw [List.mem_singleton] at hb
          rw [hb]
          intro hc
          exact hmem ((hseen (pyLower e.term)).mpr ⟨a, ha, hc⟩)
    · rw [if_neg hacc, if_neg hacc]
      exact ih cleaned seen hseen hpw

/-- C3: the post-processor's output is exactly the spec-worded process
(merge duplicates by appending the definition onto the earliest
accepted entry with that case-insensitive term, discard the duplicate,
keep first-acceptance order), and no two output entries share a
lowered term. -/
theorem postProcessUniqueMerge (entries : List Entry) :
    post_process_entries entries = postProcessSpec entries ∧
      (post_process_entries entries).Pairwise distinctLowerTerm :=
  ppLoop_eq_specLoop entries [] [] (by simp) (by simp)

/-- C10: when the post-processor merges a duplicate into a
duplicate-free accepted list, the list keeps its length, every entry
other than the (unique) matching one is unchanged, and the matching
entry keeps its term, page and cross-reference flag, with only its
definition extended by a space and the duplicate's definition. -/
theorem mergeFramePreservation (cleaned : List Entry) (tl d : List Char)
    (hpw : cleaned.Pairwise distinctLowerTerm)
    (i : Nat) (hi : i < cleaned.length)
    (hm : pyLower (cleaned.get ⟨i, hi⟩).term = tl) :
    (appendToLastMatching cleaned tl d).length = cleaned.length ∧
    (∀ j, j ≠ i → (appendToLastMatching cleaned tl d)[j]? = cleaned[j]?) ∧
    ∃ e', (appendToLastMatching cleaned tl d)[i]? = some e' ∧
      e'.term = (cleaned.get ⟨i, hi⟩).term ∧
      e'.page = (cleaned.get ⟨i, hi⟩).page ∧
      e'.is_cross_ref = (cleaned.get ⟨i, hi⟩).is_cross_ref ∧
      e'.definition = (cleaned.get ⟨i, hi⟩).definition ++ ' ' :: d := by
  rw [appendToLastMatching_eq_map cleaned tl d hpw]
  refine ⟨List.length_map _ _, ?_, ?_⟩
  · intro j hj
    rw [List.getElem?_map]
    by_cases hjl : j < cleaned.length
    · rw [List.getElem?_eq_getElem hjl]
      simp only [Option.map_some']
      have hne : pyLower (cleaned[j]).term ≠ tl := by
        rcases Nat.lt_or_ge j i with hlt | hge
        · have := List.pairwise_iff_getElem.mp hpw j i hjl hi hlt
          unfold distinctLowerTerm at this
          rw [← hm]
          exact this
        · have hgt : i < j := Nat.lt_of_le_of_ne hge (fun hc => hj hc.symm)
          have := List.pairwise_iff_getElem.mp hpw i j hi hjl hgt
          unfold distinctLowerTerm at this
          rw [← hm]
          exact fun hc => this hc.symm
      rw [show updIfMatch tl d cleaned[j] = cleaned[j] from
        by unfold updIfMatch; rw [if_neg hne]]
    · rw [List.getElem?_eq_none (Nat.le_of_not_lt hjl)]
      rfl
  · refine ⟨updIfMatch tl d (cleaned.get ⟨i, hi⟩), ?_, updIfMatch_term tl d _,
      updIfMatch_page tl d _, updIfMatch_is_cross_ref tl d _, ?_⟩
    · rw [List.getElem?_map, List.getElem?_eq_getElem hi]
      rfl
    · unfold updIfMatch
      rw [if_pos hm]

/-- C10 (witness): the merge-frame theorem applied to a concrete
two-entry list, merging new text into the first entry. -/
theorem mergeFrameWitness :
    (appendToLastMatching [entryPhoenix, entryDragon] ("phoenix".toList)
        ("extra words".toList)).length = [entryPhoenix, entryDragon].length ∧
    (∀ j, j ≠ 0 → (appendToLastMatching [entryPhoenix, entryDragon] ("phoenix".toList)
        ("extra words".toList))[j]? = [entryPhoenix, entryDragon][j]?) ∧
    ∃ e', (appendToLastMatching [entryPhoenix, entryDragon] ("phoenix".toList)
        ("extra words".toList))[0]? = some e' ∧
      e'.term = ([entryPhoenix, entryDragon].get ⟨0, by decide⟩).term ∧
      e'.page = ([entryPhoenix, entryDragon].get ⟨0, by decide⟩).page ∧
      e'.is_cross_ref = ([entryPhoenix, entryDragon].get ⟨0, by decide⟩).is_cross_ref ∧
      e'.definition = ([entryPhoenix, entryDragon].get ⟨0, by decide⟩).definition ++
        ' ' :: ("extra words".toList) :=
  mergeFramePreservation [entryPhoenix, entryDragon] ("phoenix".toList)
    ("extra words".toList)
    (by unfold distinctLowerTerm; simp [List.pairwise_cons]; decide)
    0 (by decide) (by decide)

/-! ### C9: finalization of a trailing open entry -/

/-- C9: if the block stream ends while an entry is open (state
"Collecting": `current_term = some t` with buffered lines `b`), the
open entry is finalized and appended to the output list at end of
stream rather than discarded.  The hypotheses `ht`, `hb`, `hd` mirror
the source's flush guards (`if current_term and
current_definition_lines` and `if definition`), which always hold for
an entry opened by the heading detector since its buffer starts with
the nonempty rest of the heading line. -/
theorem trailingEntryFinalized (doc : List Page) (es : List Entry) (t : List Char)
    (b : List (List Char)) (p : Nat)
    (hrun : runBlocks doc = ⟨es, some t, b, p⟩)
    (ht : t.isEmpty = false) (hb : b.isEmpty = false)
    (hd : (clean_definition (joinWith [' '] b)).isEmpty = false) :
    extract_entries doc =
      es ++ [⟨t, clean_definition (joinWith [' '] b), p + 1,
        is_cross_reference (clean_definition (joinWith [' '] b))⟩] := by
  unfold extract_entries flushPending
  rw [hrun]
  simp [ht, hb, hd]

/-- C9 (witness): the phoenix document ends in state "Collecting", and
its open entry is still emitted. -/
theorem trailingEntryFinalizedWitness :
    runBlocks docPhoenix = ⟨[], some ("phoenix".toList), phoenixBuffer, 8⟩ ∧
    extract_entries docPhoenix =
      [] ++ [⟨"phoenix".toList, clean_definition (joinWith [' '] phoenixBuffer), 8 + 1,
        is_cross_reference (clean_definition (joinWith [' '] phoenixBuffer))⟩] :=
  ⟨by decide,
    trailingEntryFinalized docPhoenix [] ("phoenix".toList) phoenixBuffer 8
      (by decide) (by decide) (by decide) (by decide)⟩
